import Mathlib

/-!
# r.convergence: the driver in `raster/r.convergence/main.c`

A shallow embedding of `main`: the validation of the window size, the selection of
the weighting method, and the row loop that fills the output buffer, shifts the row
buffers and hands each finished row to the raster writer.

Conventions of the embedding.

* C `int` values are `Int`; the only arithmetic is `window_size/2`, `window_size%2`,
  sums and differences of the region size and the radius, none of which can wrap for
  a region that fits in memory. `/` and `%` of C truncate, hence `Int.tdiv`, `Int.tmod`.
* `out_buf` is a map from the cell index to the cell, assignment is `Function.update`.
* `G_fatal_error` and `exit` end the run: the run's `Outcome` carries the exit status
  and the calls made so far.
* Functions and macros of the module that live in other files (`calculate_convergence`,
  `shift_buffers`, `create_maps`, `PI2PERCENT`) and the return codes of the library
  calls that `main` tests are fields of `Env`. Of the library calls whose result `main`
  does not test, the progress report `G_percent`, `G_check_input_output_name` and
  `G_get_window` are left out; the others are recorded in the trace of calls. A library
  call that ends the process by itself (`G_check_input_output_name` is called with
  `GR_FATAL_EXIT`) is outside the embedding: a full pass is a run in which none does.
* `main` takes the return code of `G_parser` from `Env`; `r_convergence` is the module
  run on a command line, where the parser refuses a `weights` answer that is not among
  the values line 58 allows.
-/

namespace RConvergence

/-- An `FCELL` of the output buffer: the null-value marker written by
`G_set_f_null_value`, or a value assigned by the driver. -/
inductive FCell (V : Type) where
  | null : FCell V
  | val (v : V) : FCell V
  deriving DecidableEq, Repr

/-- Modelled from the spec: the enumerators `m_STANDARD` .. `m_GENTLE` are declared in
`local_proto.h`, which is not part of the sources at hand; the spec gives the weighting
method as an enum of the five names standard, inverse, power, square, gentle. -/
inductive Method where
  | m_STANDARD
  | m_INVERSE
  | m_POWER
  | m_SQUARE
  | m_GENTLE
  deriving DecidableEq, Repr

/-- How a run ends: `exit(EXIT_SUCCESS)`, `exit(EXIT_FAILURE)` after the option parser
refused the command line, or `G_fatal_error` with its message. -/
inductive Exit where
  | success
  | failure
  | fatal (msg : String)
  deriving DecidableEq, Repr

/-- The calls `main` makes that open, compute, shift or write raster rows, in the order
made. The `row` of `put_raster_row` is the loop index at the time of the call (the
writer itself receives only the buffer); `cells` are the first `ncols` cells of
`out_buf` at that time. -/
inductive Event (V : Type) where
  | open_map
  | create_maps
  | create_distance_aspect_matrix (arg : Int)
  | open_raster_new
  | calculate_convergence (row cur_row col : Int)
  | shift_buffers (row : Int)
  | put_raster_row (row : Int) (cells : List (FCell V))
  | write_colors
  | free_map (rows : Int)
  | close_cell
  | write_history
  deriving DecidableEq, Repr

/-- The answers of the option parser that `main` reads: `window` is
`atoi(par_window->answer)`, `weights` is `par_method->answer`, the two flags are
`flag_circular->answer` and `flag_slope->answer`. -/
structure Args where
  window : Int
  weights : String
  circular : Bool
  slope : Bool
  deriving DecidableEq, Repr

/-- The globals `main` sets before the row loop. `f_method` is `none` when no branch of
the selection chain assigned it. -/
structure Config where
  window_size : Int
  f_method : Option Method
  f_circular : Bool
  f_slope : Bool
  nrows : Int
  ncols : Int
  radius : Int
  deriving DecidableEq, Repr

/-- What `main` takes from its surroundings. `σ` is the state of the row buffers owned
by `create_maps`, `shift_buffers` and `calculate_convergence`; `V` is the type of the
values of an `FCELL`. `G_put_raster_row r` is the return code of the write made in
iteration `r` of the row loop. -/
structure Env (σ V : Type) where
  nrows : Int
  ncols : Int
  G_parser_rc : Int
  G_open_raster_new : Int
  G_put_raster_row : Int → Int
  G_allocate_raster_buf : Int → FCell V
  create_maps : Config → σ
  shift_buffers : Config → σ → Int → σ
  calculate_convergence : Config → σ → Int → Int → Int → V
  PI2PERCENT : V
  mul : V → V → V

/-- The state the row loop works on. `exit` is `none` while the run goes on. -/
structure State (σ V : Type) where
  bufs : σ
  out_buf : Int → FCell V
  events : List (Event V)
  exit : Option Exit

/-- The result of a run: the calls made and how the run ended. -/
structure Outcome (V : Type) where
  events : List (Event V)
  exit : Exit

/-- Message of the fatal error of the window check, `main.c` line 76. -/
def WINDOW_MSG : String := "Window size must be odd and at least 3"

/-- Message of the fatal error after `G_open_raster_new`, line 118. -/
def CREATE_MSG : String := "Unable to create raster map"

/-- Message of the fatal error after `G_put_raster_row`, line 150. -/
def WRITE_MSG : String := "Failed writing raster map"

/-- `G_set_f_null_value(&buf[start], n)`: the `n` cells from `start` on become null. -/
def G_set_f_null_value {V : Type} (buf : Int → FCell V) (start n : Int) : Int → FCell V :=
  fun i => if start ≤ i ∧ i < start + n then FCell.null else buf i

/-- The selection chain of lines 78-87: one `strcmp` per name, no final `else`. -/
def select_method (answer : String) : Option Method :=
  if answer = "standard" then some Method.m_STANDARD
  else if answer = "inverse" then some Method.m_INVERSE
  else if answer = "power" then some Method.m_POWER
  else if answer = "square" then some Method.m_SQUARE
  else if answer = "gentle" then some Method.m_GENTLE
  else none

/-- Lines 74-97: the window check, the method, the flags, the region size, the radius. -/
def setup {σ V : Type} (env : Env σ V) (args : Args) : Except String Config :=
  if args.window < 3 ∨ Int.tmod args.window 2 = 0 then
    Except.error WINDOW_MSG
  else
    Except.ok
      { window_size := args.window
        f_method := select_method args.weights
        f_circular := args.circular
        f_slope := args.slope
        nrows := env.nrows
        ncols := env.ncols
        radius := Int.tdiv args.window 2 }

/-- Lines 129-130: the index of the buffer row handed to `calculate_convergence` for
raster row `row`, by the comment of line 123 the current row in the buffer. -/
def cur_row (cfg : Config) (row : Int) : Int :=
  if row < cfg.radius then row
  else if row ≥ cfg.nrows - cfg.radius then cfg.window_size - (cfg.nrows - row)
  else cfg.radius

/-- The first `ncols` cells of the buffer, which the writer reads. -/
def row_cells {V : Type} (ncols : Int) (buf : Int → FCell V) : List (FCell V) :=
  (List.range ncols.toNat).map (fun (c : Nat) => buf (c : Int))

/-- Lines 138-142: one turn of the column loop. -/
def col_body {σ V : Type} (env : Env σ V) (cfg : Config) (row cr : Int)
    (st : State σ V) (col : Int) : State σ V :=
  if col < 1 ∨ col > cfg.ncols - 1 then
    { st with out_buf := G_set_f_null_value st.out_buf col 1 }
  else
    { st with
      out_buf := Function.update st.out_buf col
        (FCell.val (env.mul env.PI2PERCENT (env.calculate_convergence cfg st.bufs row cr col)))
      events := st.events ++ [Event.calculate_convergence row cr col] }

/-- Line 137: `for (col=0; col<ncols; ++col)`. -/
def col_loop {σ V : Type} (env : Env σ V) (cfg : Config) (row cr : Int)
    (st : State σ V) : State σ V :=
  (List.range cfg.ncols.toNat).foldl (fun s (c : Nat) => col_body env cfg row cr s (c : Int)) st

/-- Lines 145-147: the shift of the row buffers, made after the row's cells. -/
def shift_step {σ V : Type} (env : Env σ V) (cfg : Config) (row : Int)
    (st : State σ V) : State σ V :=
  if row > cfg.radius ∧ row < cfg.nrows - (cfg.radius + 1) then
    { st with
      bufs := env.shift_buffers cfg st.bufs row
      events := st.events ++ [Event.shift_buffers row] }
  else st

/-- Lines 149-150: the row goes to the writer; a negative return code is fatal. -/
def put_step {σ V : Type} (env : Env σ V) (cfg : Config) (row : Int)
    (st : State σ V) : State σ V :=
  { st with
    events := st.events ++ [Event.put_raster_row row (row_cells cfg.ncols st.out_buf)]
    exit := if env.G_put_raster_row row < 0 then some (Exit.fatal WRITE_MSG) else none }

/-- Lines 128-150: one turn of the row loop. After a fatal error nothing runs. The
`continue` of line 134 leaves the turn before the shift and before the write. -/
def row_body {σ V : Type} (env : Env σ V) (cfg : Config) (st : State σ V) (row : Int) :
    State σ V :=
  match st.exit with
  | some _ => st
  | none =>
    let cr := cur_row cfg row
    if row < 1 ∨ row > cfg.nrows - 1 then
      { st with out_buf := G_set_f_null_value st.out_buf 0 cfg.ncols }
    else
      put_step env cfg row (shift_step env cfg row (col_loop env cfg row cr st))

/-- Line 127: `for (row=0; row<nrows; ++row)`. -/
def row_loop {σ V : Type} (env : Env σ V) (cfg : Config) (st : State σ V) : State σ V :=
  (List.range cfg.nrows.toNat).foldl (fun s (r : Nat) => row_body env cfg s (r : Int)) st

/-- Lines 110-117: the calls made between the setup and the row loop. -/
def open_events {V : Type} : List (Event V) :=
  [Event.open_map, Event.create_maps, Event.create_distance_aspect_matrix 0,
   Event.open_raster_new]

/-- Lines 156-177: the calls made after the row loop. -/
def close_events {V : Type} (cfg : Config) : List (Event V) :=
  [Event.write_colors, Event.free_map cfg.window_size, Event.free_map cfg.window_size,
   Event.free_map (cfg.window_size + 1), Event.close_cell, Event.write_history]

/-- The function `main` from line 71 on, `env.G_parser_rc` being the return code of
the call of `G_parser`. -/
def main {σ V : Type} (env : Env σ V) (args : Args) : Outcome V :=
  if env.G_parser_rc ≠ 0 then
    { events := [], exit := Exit.failure }
  else
    match setup env args with
    | Except.error msg => { events := [], exit := Exit.fatal msg }
    | Except.ok cfg =>
      if env.G_open_raster_new < 0 then
        { events := open_events, exit := Exit.fatal CREATE_MSG }
      else
        let st := row_loop env cfg
          { bufs := env.create_maps cfg
            out_buf := env.G_allocate_raster_buf
            events := open_events
            exit := none }
        match st.exit with
        | some e => { events := st.events, exit := e }
        | none => { events := st.events ++ close_events cfg, exit := Exit.success }

/-- Line 58: `par_method->options`, the values the option parser allows for `weights`. -/
def METHOD_OPTIONS : List String := ["standard", "inverse", "power", "square", "gentle"]

/-- Modelled from the spec: `G_parser` is library code, not part of the sources at hand;
by the spec the weighting method is one of the five named methods and an unknown one
ends the run at setup with no output. The return code of the call of line 71 is
non-zero when the `weights` answer is not among the values line 58 allows, and
otherwise `lib_rc`, what the library makes of the rest of the command line. -/
def G_parser_rc_of (lib_rc : Int) (args : Args) : Int :=
  if args.weights ∈ METHOD_OPTIONS then lib_rc else -1

/-- The module run on the command line `args`: `main` with the return code the parser
gives for this command line, `env.G_parser_rc` standing for what the library makes of
everything but the `weights` answer. -/
def r_convergence {σ V : Type} (env : Env σ V) (args : Args) : Outcome V :=
  main { env with G_parser_rc := G_parser_rc_of env.G_parser_rc args } args

/-! ## Reading a trace -/

/-- The loop indices of the rows handed to the writer, in the order handed. -/
def put_rows {V : Type} : List (Event V) → List Int
  | [] => []
  | Event.put_raster_row r _ :: es => r :: put_rows es
  | _ :: es => put_rows es

/-- The rows for which `shift_buffers` was called, in the order called. -/
def shift_rows {V : Type} : List (Event V) → List Int
  | [] => []
  | Event.shift_buffers r :: es => r :: shift_rows es
  | _ :: es => shift_rows es

/-- The cells handed to the writer in iteration `row`, if that iteration wrote. -/
def put_at {V : Type} : List (Event V) → Int → Option (List (FCell V))
  | [], _ => none
  | Event.put_raster_row r cells :: es, row => if r = row then some cells else put_at es row
  | _ :: es, row => put_at es row

/-- The cell at column `col` of the row handed to the writer in iteration `row`. -/
def emitted {V : Type} (events : List (Event V)) (row col : Int) : Option (FCell V) :=
  match put_at events row with
  | some cells => if 0 ≤ col then cells[col.toNat]? else none
  | none => none

/-! ## A symbolic environment -/

/-- Values as terms: the constant `PI2PERCENT`, the result of a call of
`calculate_convergence` together with the number of shifts made before it, a product. -/
inductive Sym where
  | pi2percent : Sym
  | conv (base row cur_row col : Int) : Sym
  | times (a b : Sym) : Sym
  deriving DecidableEq, Repr

/-- Modelled from the spec: `shift_buffers` and `create_maps` are in files not at hand.
The buffers hold the raster rows `base .. base + window_size`; `base` is 0 at the start
and every call of `shift_buffers` advances it by one. All library calls succeed. -/
def symEnv (nrows ncols : Int) : Env Int Sym where
  nrows := nrows
  ncols := ncols
  G_parser_rc := 0
  G_open_raster_new := 0
  G_put_raster_row := fun _ => 0
  G_allocate_raster_buf := fun _ => FCell.val Sym.pi2percent
  create_maps := fun _ => 0
  shift_buffers := fun _ base _ => base + 1
  calculate_convergence := fun _ base row cr col => Sym.conv base row cr col
  PI2PERCENT := Sym.pi2percent
  mul := Sym.times

/-- A command line with the given window size and method, square window, no slope. -/
def argsOf (window : Int) (weights : String) : Args :=
  { window := window, weights := weights, circular := false, slope := false }

/-! ## Closed forms of the two loops -/

/-- The configuration `setup` builds when the window check passes. -/
def config_of {σ V : Type} (env : Env σ V) (args : Args) : Config :=
  { window_size := args.window
    f_method := select_method args.weights
    f_circular := args.circular
    f_slope := args.slope
    nrows := env.nrows
    ncols := env.ncols
    radius := Int.tdiv args.window 2 }

/-- The cell the column loop leaves at column `col` of row `row`. -/
def cell_of {σ V : Type} (env : Env σ V) (cfg : Config) (bufs : σ) (row col : Int) : FCell V :=
  if col < 1 ∨ col > cfg.ncols - 1 then FCell.null
  else FCell.val (env.mul env.PI2PERCENT
    (env.calculate_convergence cfg bufs row (cur_row cfg row) col))

/-- The calls of `calculate_convergence` made for the first `n` columns of a row. -/
def calc_events {V : Type} (cfg : Config) (row cr : Int) : Nat → List (Event V)
  | 0 => []
  | n + 1 => calc_events cfg row cr n ++
      (if (n : Int) < 1 ∨ (n : Int) > cfg.ncols - 1 then []
       else [Event.calculate_convergence row cr (n : Int)])

/-- The calls made in iteration `row` of the row loop when the writer succeeds, the
buffers being in state `bufs` when the iteration starts. -/
def row_events {σ V : Type} (env : Env σ V) (cfg : Config) (bufs : σ) (row : Int) :
    List (Event V) :=
  if row < 1 ∨ row > cfg.nrows - 1 then []
  else
    calc_events cfg row (cur_row cfg row) cfg.ncols.toNat ++
      ((if row > cfg.radius ∧ row < cfg.nrows - (cfg.radius + 1) then
          [Event.shift_buffers row] else []) ++
        [Event.put_raster_row row
          ((List.range cfg.ncols.toNat).map (fun (c : Nat) => cell_of env cfg bufs row (c : Int)))])

/-- The state of the row buffers after iteration `row`, from the state before it. -/
def row_bufs {σ V : Type} (env : Env σ V) (cfg : Config) (bufs : σ) (row : Int) : σ :=
  if row < 1 ∨ row > cfg.nrows - 1 then bufs
  else if row > cfg.radius ∧ row < cfg.nrows - (cfg.radius + 1) then
    env.shift_buffers cfg bufs row
  else bufs

/-- The state of the row buffers when iteration `k` starts, from the state `b0`
at the start of the loop. -/
def bufs_at {σ V : Type} (env : Env σ V) (cfg : Config) (b0 : σ) : Nat → σ
  | 0 => b0
  | k + 1 => row_bufs env cfg (bufs_at env cfg b0 k) (k : Int)

/-- The calls made in the first `k` iterations of the row loop. -/
def loop_events {σ V : Type} (env : Env σ V) (cfg : Config) (b0 : σ) : Nat → List (Event V)
  | 0 => []
  | k + 1 => loop_events env cfg b0 k ++ row_events env cfg (bufs_at env cfg b0 k) (k : Int)

/-- After `n` turns of the column loop the first `n` cells of the buffer are overwritten,
null at the guarded columns and the scaled convergence elsewhere; the rest of the
buffer, the row buffers and the exit status are as before. -/
theorem col_loop_range {σ V : Type} (env : Env σ V) (cfg : Config) (row cr : Int)
    (st : State σ V) (n : Nat) :
    (List.range n).foldl (fun s (c : Nat) => col_body env cfg row cr s (c : Int)) st =
      { bufs := st.bufs
        out_buf := fun i =>
          if 0 ≤ i ∧ i < (n : Int) then
            (if i < 1 ∨ i > cfg.ncols - 1 then FCell.null
             else FCell.val (env.mul env.PI2PERCENT
               (env.calculate_convergence cfg st.bufs row cr i)))
          else st.out_buf i
        events := st.events ++ calc_events cfg row cr n
        exit := st.exit } := by
  induction n with
  | zero =>
    cases st
    simp [calc_events]
    funext i
    have : ¬ (0 ≤ i ∧ i < 0) := by omega
    simp [this]
  | succ n ih =>
    rw [List.range_succ, List.foldl_append, ih]
    simp only [List.foldl_cons, List.foldl_nil, col_body, calc_events]
    by_cases h : ((n : Int) < 1 ∨ (n : Int) > cfg.ncols - 1)
    · simp only [h, if_true, List.append_nil]
      congr 1
      funext i
      simp only [G_set_f_null_value]
      by_cases hi : i = (n : Int)
      · subst hi
        have h1 : (n : Int) ≤ n ∧ (n : Int) < n + 1 := by omega
        have h2 : 0 ≤ (n : Int) ∧ (n : Int) < ((n + 1 : Nat) : Int) := by omega
        simp only [h1, h2, h, and_self, if_true]
      · have h1 : ¬ ((n : Int) ≤ i ∧ i < n + 1) := by omega
        have h2 : (0 ≤ i ∧ i < ((n + 1 : Nat) : Int)) ↔ (0 ≤ i ∧ i < (n : Int)) := by omega
        simp only [h1, h2, if_false]
    · simp only [h, if_false, List.append_assoc]
      congr 1
      funext i
      by_cases hi : i = (n : Int)
      · subst hi
        have h2 : 0 ≤ (n : Int) ∧ (n : Int) < ((n + 1 : Nat) : Int) := by omega
        simp only [Function.update_same, h2, h, and_self, if_true, if_false]
      · have h2 : (0 ≤ i ∧ i < ((n + 1 : Nat) : Int)) ↔ (0 ≤ i ∧ i < (n : Int)) := by omega
        simp only [Function.update_noteq hi, h2]

/-- After the column loop the `ncols` cells the writer reads do not depend on what the
buffer held before. -/
theorem row_cells_col_loop {σ V : Type} (env : Env σ V) (cfg : Config) (row : Int)
    (st : State σ V) :
    row_cells cfg.ncols (col_loop env cfg row (cur_row cfg row) st).out_buf =
      (List.range cfg.ncols.toNat).map (fun (c : Nat) => cell_of env cfg st.bufs row (c : Int)) := by
  unfold row_cells col_loop
  rw [col_loop_range]
  apply List.map_congr_left
  intro c hc
  have hc2 : c < cfg.ncols.toNat := List.mem_range.mp hc
  have h : 0 ≤ (c : Int) ∧ (c : Int) < ((cfg.ncols.toNat : Nat) : Int) := by omega
  simp only [h, and_self, if_true, cell_of]

/-- One turn of the row loop, the run going on and the write succeeding: the row buffers,
the calls made and the exit status afterwards. -/
theorem row_body_ok {σ V : Type} (env : Env σ V) (cfg : Config) (st : State σ V) (row : Int)
    (hexit : st.exit = none) (hput : 0 ≤ env.G_put_raster_row row) :
    (row_body env cfg st row).bufs = row_bufs env cfg st.bufs row ∧
    (row_body env cfg st row).events = st.events ++ row_events env cfg st.bufs row ∧
    (row_body env cfg st row).exit = none := by
  unfold row_body row_bufs row_events
  simp only [hexit]
  by_cases h : (row < 1 ∨ row > cfg.nrows - 1)
  · simp [h, hexit]
  · simp only [h, if_false]
    have hp : ¬ env.G_put_raster_row row < 0 := by omega
    by_cases hs : (row > cfg.radius ∧ row < cfg.nrows - (cfg.radius + 1))
    · simp only [put_step, shift_step, hs, and_self, if_true, hp, if_false,
        row_cells_col_loop, List.append_assoc, and_true]
      simp only [col_loop, col_loop_range, List.append_assoc, List.singleton_append, and_self]
    · simp only [put_step, shift_step, hs, if_false, hp,
        row_cells_col_loop, List.append_assoc, and_true, List.nil_append]
      simp only [col_loop, col_loop_range, List.append_assoc, and_self]

/-- The first `k` turns of the row loop, every write succeeding. -/
theorem row_loop_range {σ V : Type} (env : Env σ V) (cfg : Config) (st : State σ V)
    (hexit : st.exit = none) (k : Nat)
    (hput : ∀ r : Nat, r < k → 0 ≤ env.G_put_raster_row (r : Int)) :
    ((List.range k).foldl (fun s (r : Nat) => row_body env cfg s (r : Int)) st).bufs
        = bufs_at env cfg st.bufs k ∧
    ((List.range k).foldl (fun s (r : Nat) => row_body env cfg s (r : Int)) st).events
        = st.events ++ loop_events env cfg st.bufs k ∧
    ((List.range k).foldl (fun s (r : Nat) => row_body env cfg s (r : Int)) st).exit
        = none := by
  induction k with
  | zero => simp [bufs_at, loop_events, hexit]
  | succ k ih =>
    obtain ⟨hb, he, hx⟩ := ih (fun r hr => hput r (Nat.lt_succ_of_lt hr))
    rw [List.range_succ, List.foldl_append]
    simp only [List.foldl_cons, List.foldl_nil]
    obtain ⟨hb2, he2, hx2⟩ := row_body_ok env cfg _ (k : Int) hx (hput k (Nat.lt_succ_self k))
    rw [hb2, he2, hx2, hb, he]
    simp [bufs_at, loop_events]

/-- A full pass: a run whose command line passes the parser and the window check, and whose library
calls all succeed, makes the opening calls, the calls of the row loop and the closing
calls, and exits with success. -/
theorem main_full_pass {σ V : Type} (env : Env σ V) (args : Args)
    (hparse : env.G_parser_rc = 0) (h3 : 3 ≤ args.window) (hodd : args.window % 2 = 1)
    (hopen : 0 ≤ env.G_open_raster_new)
    (hput : ∀ r : Int, 0 ≤ r → r < env.nrows → 0 ≤ env.G_put_raster_row r) :
    main env args =
      { events := open_events ++
          loop_events env (config_of env args) (env.create_maps (config_of env args))
            env.nrows.toNat ++ close_events (config_of env args)
        exit := Exit.success } := by
  have hsetup : setup env args = Except.ok (config_of env args) := by
    unfold setup config_of
    have hm : ¬ (args.window < 3 ∨ Int.tmod args.window 2 = 0) := by
      rw [Int.tmod_eq_emod (by omega) (by omega)]
      omega
    simp only [hm, if_false]
  have hopen2 : ¬ env.G_open_raster_new < 0 := by omega
  unfold main
  simp only [hparse, ne_eq, not_true_eq_false, if_false, hsetup, hopen2]
  have hloop := row_loop_range env (config_of env args)
    { bufs := env.create_maps (config_of env args)
      out_buf := env.G_allocate_raster_buf
      events := open_events
      exit := none } rfl env.nrows.toNat
    (fun r hr => hput r (by omega) (by omega))
  obtain ⟨_, he, hx⟩ := hloop
  have hn : (config_of env args).nrows = env.nrows := rfl
  unfold row_loop
  rw [hn]
  simp only [hx, he]

/-! ## Reading the trace of the row loop -/

/-- The written rows of a concatenated trace. -/
theorem put_rows_append {V : Type} (a b : List (Event V)) :
    put_rows (a ++ b) = put_rows a ++ put_rows b := by
  induction a with
  | nil => rfl
  | cons e es ih => cases e <;> simp [put_rows, ih]

/-- The shifted rows of a concatenated trace. -/
theorem shift_rows_append {V : Type} (a b : List (Event V)) :
    shift_rows (a ++ b) = shift_rows a ++ shift_rows b := by
  induction a with
  | nil => rfl
  | cons e es ih => cases e <;> simp [shift_rows, ih]

/-- The row written in iteration `row`, looked up in a concatenated trace. -/
theorem put_at_append {V : Type} (a b : List (Event V)) (row : Int) :
    put_at (a ++ b) row =
      match put_at a row with
      | some cells => some cells
      | none => put_at b row := by
  induction a with
  | nil => rfl
  | cons e es ih =>
    cases e with
    | put_raster_row r cells =>
      show put_at (Event.put_raster_row r cells :: (es ++ b)) row = _
      by_cases h : r = row
      · simp only [put_at, h, if_true]
      · simp only [put_at, h, if_false]
        exact ih
    | _ => exact ih

/-- The column loop writes no row. -/
theorem put_rows_calc_events {V : Type} (cfg : Config) (row cr : Int) (n : Nat) :
    put_rows (calc_events cfg row cr n : List (Event V)) = [] := by
  induction n with
  | zero => rfl
  | succ n ih =>
    simp only [calc_events, put_rows_append, ih]
    split <;> rfl

/-- The column loop shifts no buffer. -/
theorem shift_rows_calc_events {V : Type} (cfg : Config) (row cr : Int) (n : Nat) :
    shift_rows (calc_events cfg row cr n : List (Event V)) = [] := by
  induction n with
  | zero => rfl
  | succ n ih =>
    simp only [calc_events, shift_rows_append, ih]
    split <;> rfl

/-- The column loop hands no row to the writer. -/
theorem put_at_calc_events {V : Type} (cfg : Config) (row cr : Int) (n : Nat) (r : Int) :
    put_at (calc_events cfg row cr n : List (Event V)) r = none := by
  induction n with
  | zero => rfl
  | succ n ih =>
    simp only [calc_events, put_at_append, ih]
    split <;> rfl

/-- The calls the column loop makes in its first `n` turns: one for each column from 1 to
`ncols - 1`. -/
theorem mem_calc_events {V : Type} (cfg : Config) (row cr : Int) (n : Nat) (e : Event V) :
    e ∈ calc_events cfg row cr n ↔
      ∃ c : Int, e = Event.calculate_convergence row cr c ∧ 1 ≤ c ∧ c < (n : Int) ∧
        c ≤ cfg.ncols - 1 := by
  induction n with
  | zero =>
    simp only [calc_events, List.not_mem_nil, false_iff]
    rintro ⟨c, _, h1, h2, _⟩
    omega
  | succ n ih =>
    simp only [calc_events, List.mem_append, ih]
    constructor
    · rintro (⟨c, he, h1, h2, h3⟩ | h)
      · exact ⟨c, he, h1, by omega, h3⟩
      · by_cases hn : ((n : Int) < 1 ∨ (n : Int) > cfg.ncols - 1)
        · simp only [hn, if_true, List.not_mem_nil] at h
        · simp only [hn, if_false, List.mem_singleton] at h
          exact ⟨(n : Int), h, by omega, by omega, by omega⟩
    · rintro ⟨c, he, h1, h2, h3⟩
      by_cases hc : c = (n : Int)
      · right
        subst hc
        have hn : ¬ ((n : Int) < 1 ∨ (n : Int) > cfg.ncols - 1) := by omega
        simp only [hn, if_false, List.mem_singleton]
        exact he
      · left
        exact ⟨c, he, h1, by omega, h3⟩

/-- One turn of the row loop writes its row, unless it is left at `continue`. -/
theorem put_rows_row_events {σ V : Type} (env : Env σ V) (cfg : Config) (bufs : σ)
    (row : Int) :
    put_rows (row_events env cfg bufs row) =
      if row < 1 ∨ row > cfg.nrows - 1 then [] else [row] := by
  unfold row_events
  by_cases h : (row < 1 ∨ row > cfg.nrows - 1)
  · simp [h, put_rows]
  · simp only [h, if_false, put_rows_append, put_rows_calc_events, List.nil_append]
    split <;> simp [put_rows]

/-- One turn of the row loop shifts the buffers when the shift test holds and the turn is
not left at `continue`. -/
theorem shift_rows_row_events {σ V : Type} (env : Env σ V) (cfg : Config) (bufs : σ)
    (row : Int) :
    shift_rows (row_events env cfg bufs row) =
      if ¬ (row < 1 ∨ row > cfg.nrows - 1) ∧
          (row > cfg.radius ∧ row < cfg.nrows - (cfg.radius + 1)) then [row] else [] := by
  unfold row_events
  by_cases h : (row < 1 ∨ row > cfg.nrows - 1)
  · simp [h, shift_rows]
  · simp only [h, if_false, shift_rows_append, shift_rows_calc_events, List.nil_append,
      not_false_eq_true, true_and]
    split <;> simp [shift_rows]

/-- The cells written in one turn of the row loop. -/
theorem put_at_row_events {σ V : Type} (env : Env σ V) (cfg : Config) (bufs : σ)
    (row r : Int) :
    put_at (row_events env cfg bufs row) r =
      if ¬ (row < 1 ∨ row > cfg.nrows - 1) ∧ row = r then
        some ((List.range cfg.ncols.toNat).map
          (fun (c : Nat) => cell_of env cfg bufs row (c : Int)))
      else none := by
  unfold row_events
  by_cases h : (row < 1 ∨ row > cfg.nrows - 1)
  · simp [h, put_at]
  · simp only [h, if_false, put_at_append, put_at_calc_events, not_false_eq_true, true_and]
    by_cases hs : (row > cfg.radius ∧ row < cfg.nrows - (cfg.radius + 1))
    · simp only [hs, and_self, if_true, put_at]
    · simp only [hs, if_false, put_at]

/-- The first `k` turns of the row loop write the rows `1 .. k-1`. -/
theorem put_rows_loop_events {σ V : Type} (env : Env σ V) (cfg : Config) (b0 : σ) (k : Nat)
    (hk : k ≤ cfg.nrows.toNat) :
    put_rows (loop_events env cfg b0 k) =
      (List.range (k - 1)).map (fun (i : Nat) => (i : Int) + 1) := by
  induction k with
  | zero => rfl
  | succ k ih =>
    have hk2 : k ≤ cfg.nrows.toNat := by omega
    simp only [loop_events, put_rows_append, ih hk2, put_rows_row_events]
    cases k with
    | zero => simp
    | succ m =>
      have h : ¬ (((m + 1 : Nat) : Int) < 1 ∨ ((m + 1 : Nat) : Int) > cfg.nrows - 1) := by omega
      simp only [h, if_false, Nat.add_sub_cancel]
      rw [List.range_succ, List.map_append]
      simp

/-- The first `k` turns of the row loop shift the buffers for the rows from `radius + 1` up
to `k - 1`, and no further than `nrows - radius - 2`. -/
theorem shift_rows_loop_events {σ V : Type} (env : Env σ V) (cfg : Config) (b0 : σ) (k : Nat)
    (hr : 0 ≤ cfg.radius) (hk : k ≤ cfg.nrows.toNat) :
    shift_rows (loop_events env cfg b0 k) =
      (List.range (min (k : Int) (cfg.nrows - cfg.radius - 1) - (cfg.radius + 1)).toNat).map
        (fun (i : Nat) => cfg.radius + 1 + (i : Int)) := by
  induction k with
  | zero =>
    have h : (min ((0 : Nat) : Int) (cfg.nrows - cfg.radius - 1) - (cfg.radius + 1)).toNat = 0 := by
      omega
    rw [h]
    rfl
  | succ k ih =>
    have hk2 : k ≤ cfg.nrows.toNat := by omega
    simp only [loop_events, shift_rows_append, ih hk2, shift_rows_row_events]
    by_cases hs : (¬ ((k : Int) < 1 ∨ (k : Int) > cfg.nrows - 1) ∧
        ((k : Int) > cfg.radius ∧ (k : Int) < cfg.nrows - (cfg.radius + 1)))
    · have h1 : (min (((k + 1 : Nat)) : Int) (cfg.nrows - cfg.radius - 1) - (cfg.radius + 1)).toNat
          = (min (k : Int) (cfg.nrows - cfg.radius - 1) - (cfg.radius + 1)).toNat + 1 := by
        omega
      have h2 : (k : Int) = cfg.radius + 1 +
          (((min (k : Int) (cfg.nrows - cfg.radius - 1) - (cfg.radius + 1)).toNat : Nat) : Int) := by
        omega
      rw [if_pos hs, h1, List.range_succ, List.map_append]
      simp only [List.map_cons, List.map_nil]
      rw [← h2]
    · have h1 : (min (((k + 1 : Nat)) : Int) (cfg.nrows - cfg.radius - 1) - (cfg.radius + 1)).toNat
          = (min (k : Int) (cfg.nrows - cfg.radius - 1) - (cfg.radius + 1)).toNat := by
        omega
      rw [if_neg hs, h1, List.append_nil]

/-- The cells written for row `r` in the first `k` turns of the row loop. -/
theorem put_at_loop_events {σ V : Type} (env : Env σ V) (cfg : Config) (b0 : σ) (k : Nat)
    (hk : k ≤ cfg.nrows.toNat) (r : Int) :
    put_at (loop_events env cfg b0 k) r =
      if 1 ≤ r ∧ r < (k : Int) then
        some ((List.range cfg.ncols.toNat).map
          (fun (c : Nat) => cell_of env cfg (bufs_at env cfg b0 r.toNat) r (c : Int)))
      else none := by
  induction k with
  | zero =>
    have h : ¬ (1 ≤ r ∧ r < ((0 : Nat) : Int)) := by omega
    simp only [loop_events, put_at, h, if_false]
  | succ k ih =>
    have hk2 : k ≤ cfg.nrows.toNat := by omega
    simp only [loop_events, put_at_append, ih hk2, put_at_row_events]
    by_cases h1 : (1 ≤ r ∧ r < (k : Int))
    · have h2 : 1 ≤ r ∧ r < ((k + 1 : Nat) : Int) := by omega
      simp only [h1, h2, and_self, if_true]
    · simp only [h1, if_false]
      by_cases h3 : (¬ ((k : Int) < 1 ∨ (k : Int) > cfg.nrows - 1) ∧ (k : Int) = r)
      · have h2 : 1 ≤ r ∧ r < ((k + 1 : Nat) : Int) := by omega
        have h4 : r.toNat = k := by omega
        rw [if_pos h3, if_pos h2, h4, ← h3.2]
      · have h2 : ¬ (1 ≤ r ∧ r < ((k + 1 : Nat) : Int)) := by omega
        simp only [h3, h2, if_false]

/-- The calls of `calculate_convergence` made in one turn of the row loop. -/
theorem mem_row_events_calc {σ V : Type} (env : Env σ V) (cfg : Config) (bufs : σ)
    (row r cr c : Int) :
    (Event.calculate_convergence r cr c : Event V) ∈ row_events env cfg bufs row ↔
      (1 ≤ row ∧ row ≤ cfg.nrows - 1) ∧ r = row ∧ cr = cur_row cfg row ∧
        1 ≤ c ∧ c < cfg.ncols := by
  unfold row_events
  by_cases h : (row < 1 ∨ row > cfg.nrows - 1)
  · simp only [h, if_true, List.not_mem_nil, false_iff]
    omega
  · simp only [h, if_false, List.mem_append, mem_calc_events, List.mem_singleton]
    constructor
    · rintro (⟨c2, he, h1, h2, h3⟩ | h2 | h2)
      · injection he with e1 e2 e3
        subst e1 e2 e3
        exact ⟨by omega, rfl, rfl, h1, by omega⟩
      · split at h2
        · simp at h2
        · simp at h2
      · simp at h2
    · rintro ⟨_, e1, e2, h1, h2⟩
      left
      subst e1 e2
      exact ⟨c, rfl, h1, by omega, by omega⟩

/-- The calls of `calculate_convergence` made in the first `k` turns of the row loop. -/
theorem mem_loop_events_calc {σ V : Type} (env : Env σ V) (cfg : Config) (b0 : σ) (k : Nat)
    (hk : k ≤ cfg.nrows.toNat) (r cr c : Int) :
    (Event.calculate_convergence r cr c : Event V) ∈ loop_events env cfg b0 k ↔
      (1 ≤ r ∧ r < (k : Int)) ∧ cr = cur_row cfg r ∧ 1 ≤ c ∧ c < cfg.ncols := by
  induction k with
  | zero =>
    simp only [loop_events, List.not_mem_nil, false_iff]
    omega
  | succ k ih =>
    have hk2 : k ≤ cfg.nrows.toNat := by omega
    simp only [loop_events, List.mem_append, ih hk2, mem_row_events_calc]
    constructor
    · rintro (⟨h1, h2, h3, h4⟩ | ⟨h1, h2, h3, h4, h5⟩)
      · exact ⟨by omega, h2, h3, h4⟩
      · subst h2
        exact ⟨by omega, h3, h4, h5⟩
    · rintro ⟨h1, h2, h3, h4⟩
      by_cases hr : r = (k : Int)
      · right
        subst hr
        exact ⟨by omega, rfl, h2, h3, h4⟩
      · left
        exact ⟨by omega, h2, h3, h4⟩

/-! ## The trace of a full pass -/

/-- The rows a full pass hands to the writer. -/
theorem put_rows_main {σ V : Type} (env : Env σ V) (args : Args)
    (hparse : env.G_parser_rc = 0) (h3 : 3 ≤ args.window) (hodd : args.window % 2 = 1)
    (hopen : 0 ≤ env.G_open_raster_new)
    (hput : ∀ r : Int, 0 ≤ r → r < env.nrows → 0 ≤ env.G_put_raster_row r) :
    put_rows (main env args).events =
      (List.range (env.nrows.toNat - 1)).map (fun (i : Nat) => (i : Int) + 1) := by
  rw [main_full_pass env args hparse h3 hodd hopen hput]
  simp only [put_rows_append]
  rw [put_rows_loop_events env (config_of env args) _ env.nrows.toNat
    (le_refl _)]
  simp [put_rows, open_events, close_events]

/-- The rows for which a full pass shifts the buffers. -/
theorem shift_rows_main {σ V : Type} (env : Env σ V) (args : Args)
    (hparse : env.G_parser_rc = 0) (h3 : 3 ≤ args.window) (hodd : args.window % 2 = 1)
    (hopen : 0 ≤ env.G_open_raster_new)
    (hput : ∀ r : Int, 0 ≤ r → r < env.nrows → 0 ≤ env.G_put_raster_row r) :
    shift_rows (main env args).events =
      (List.range (env.nrows - (args.window + 1)).toNat).map
        (fun (i : Nat) => args.window / 2 + 1 + (i : Int)) := by
  rw [main_full_pass env args hparse h3 hodd hopen hput]
  have hrad : (config_of env args).radius = args.window / 2 := by
    show Int.tdiv args.window 2 = args.window / 2
    exact Int.tdiv_eq_ediv (by omega) (by omega)
  have hn : (config_of env args).nrows = env.nrows := rfl
  simp only [shift_rows_append]
  rw [shift_rows_loop_events env (config_of env args) _ env.nrows.toNat
    (by rw [hrad]; omega) (le_refl _)]
  rw [hrad, hn]
  have hcount : (min ((env.nrows.toNat : Nat) : Int) (env.nrows - args.window / 2 - 1)
      - (args.window / 2 + 1)).toNat = (env.nrows - (args.window + 1)).toNat := by
    omega
  rw [hcount]
  simp [shift_rows, open_events, close_events]

/-- The cell a full pass hands to the writer for row `row >= 1` and column `col`. -/
theorem emitted_main {σ V : Type} (env : Env σ V) (args : Args)
    (hparse : env.G_parser_rc = 0) (h3 : 3 ≤ args.window) (hodd : args.window % 2 = 1)
    (hopen : 0 ≤ env.G_open_raster_new)
    (hput : ∀ r : Int, 0 ≤ r → r < env.nrows → 0 ≤ env.G_put_raster_row r)
    (row col : Int) (hrow : 1 ≤ row ∧ row < env.nrows) (hcol : 0 ≤ col ∧ col < env.ncols) :
    emitted (main env args).events row col =
      some (cell_of env (config_of env args)
        (bufs_at env (config_of env args) (env.create_maps (config_of env args)) row.toNat)
        row col) := by
  rw [main_full_pass env args hparse h3 hodd hopen hput]
  have hn : (config_of env args).nrows = env.nrows := rfl
  have hc : (config_of env args).ncols = env.ncols := rfl
  have hopen_at : put_at (open_events : List (Event V)) row = none := rfl
  have hrow2 : 1 ≤ row ∧ row < ((env.nrows.toNat : Nat) : Int) := by omega
  unfold emitted
  rw [List.append_assoc, put_at_append, hopen_at]
  simp only []
  rw [put_at_append, put_at_loop_events env (config_of env args) _ env.nrows.toNat
    (le_refl _), if_pos hrow2]
  simp only [hcol.1, if_true, hc]
  rw [List.getElem?_map, List.getElem?_range (by omega)]
  simp only [Option.map_some']
  congr 2
  omega

/-- The calls of `calculate_convergence` a full pass makes. -/
theorem mem_main_calc {σ V : Type} (env : Env σ V) (args : Args)
    (hparse : env.G_parser_rc = 0) (h3 : 3 ≤ args.window) (hodd : args.window % 2 = 1)
    (hopen : 0 ≤ env.G_open_raster_new)
    (hput : ∀ r : Int, 0 ≤ r → r < env.nrows → 0 ≤ env.G_put_raster_row r)
    (r cr c : Int) :
    (Event.calculate_convergence r cr c : Event V) ∈ (main env args).events ↔
      (1 ≤ r ∧ r < env.nrows) ∧ cr = cur_row (config_of env args) r ∧
        1 ≤ c ∧ c < env.ncols := by
  rw [main_full_pass env args hparse h3 hodd hopen hput]
  have hn : (config_of env args).nrows = env.nrows := rfl
  have hc : (config_of env args).ncols = env.ncols := rfl
  simp only [List.mem_append]
  rw [mem_loop_events_calc env (config_of env args) _ env.nrows.toNat (le_refl _)]
  rw [hc]
  constructor
  · rintro ((h | h) | h)
    · simp [open_events] at h
    · exact ⟨by omega, h.2⟩
    · simp [close_events] at h
  · rintro ⟨h1, h2⟩
    exact Or.inl (Or.inr ⟨by omega, h2⟩)

/-- In the symbolic environment the state of the buffers is the number of shifts made so
far. -/
theorem bufs_at_symEnv (nrows ncols : Int) (cfg : Config) (k : Nat)
    (hr : 0 ≤ cfg.radius) (hk : k ≤ cfg.nrows.toNat) :
    bufs_at (symEnv nrows ncols) cfg 0 k =
      (((min (k : Int) (cfg.nrows - cfg.radius - 1) - (cfg.radius + 1)).toNat : Nat) : Int) := by
  induction k with
  | zero =>
    show (0 : Int) = _
    omega
  | succ k ih =>
    have hk2 : k ≤ cfg.nrows.toNat := by omega
    have hstep : bufs_at (symEnv nrows ncols) cfg 0 (k + 1) =
        row_bufs (symEnv nrows ncols) cfg (bufs_at (symEnv nrows ncols) cfg 0 k) (k : Int) := rfl
    rw [hstep, ih hk2]
    unfold row_bufs
    by_cases h : ((k : Int) < 1 ∨ (k : Int) > cfg.nrows - 1)
    · rw [if_pos h]
      omega
    · rw [if_neg h]
      by_cases hs : ((k : Int) > cfg.radius ∧ (k : Int) < cfg.nrows - (cfg.radius + 1))
      · rw [if_pos hs]
        show _ + 1 = _
        omega
      · rw [if_neg hs]
        omega

/-- The window check of `setup`, in terms of parity. -/
theorem setup_window_check {σ V : Type} (env : Env σ V) (args : Args) :
    (¬ (args.window < 3 ∨ Even args.window) →
      setup env args = Except.ok (config_of env args)) ∧
    ((args.window < 3 ∨ Even args.window) → setup env args = Except.error WINDOW_MSG) := by
  have hiff : (args.window < 3 ∨ Int.tmod args.window 2 = 0) ↔
      (args.window < 3 ∨ Even args.window) := by
    rw [Int.even_iff]
    by_cases hw : args.window < 3
    · simp only [hw, true_or]
    · rw [Int.tmod_eq_emod (by omega) (by omega)]
  unfold setup config_of
  constructor
  · intro h
    rw [if_neg (fun h2 => h (hiff.mp h2))]
  · intro h
    rw [if_pos (hiff.mpr h)]

/-- One turn of the row loop ends the run only with the fatal error of the writer. -/
theorem row_body_exit {σ V : Type} (env : Env σ V) (cfg : Config) (st : State σ V) (row : Int)
    (h : st.exit = none ∨ st.exit = some (Exit.fatal WRITE_MSG)) :
    (row_body env cfg st row).exit = none ∨
      (row_body env cfg st row).exit = some (Exit.fatal WRITE_MSG) := by
  unfold row_body
  rcases h with h | h
  · rw [h]
    by_cases hc : (row < 1 ∨ row > cfg.nrows - 1)
    · simp only [hc, if_true, true_or]
    · simp only [hc, if_false, put_step]
      by_cases hp : env.G_put_raster_row row < 0
      · rw [if_pos hp]
        exact Or.inr rfl
      · rw [if_neg hp]
        exact Or.inl rfl
  · rw [h]
    exact Or.inr h

/-- The row loop ends the run only with the fatal error of the writer. -/
theorem row_loop_exit {σ V : Type} (env : Env σ V) (cfg : Config) (rows : List Nat)
    (st : State σ V) (h : st.exit = none ∨ st.exit = some (Exit.fatal WRITE_MSG)) :
    (rows.foldl (fun s (r : Nat) => row_body env cfg s (r : Int)) st).exit = none ∨
      (rows.foldl (fun s (r : Nat) => row_body env cfg s (r : Int)) st).exit
        = some (Exit.fatal WRITE_MSG) := by
  induction rows generalizing st with
  | nil => exact h
  | cons r rs ih => exact ih _ (row_body_exit env cfg st (r : Int) h)

/-- After the turn of row `row` the buffer cell at column `col` is null when `row < 1` or
`col < 1`. -/
theorem row_body_out_buf {σ V : Type} (env : Env σ V) (cfg : Config) (st : State σ V)
    (row col : Int) (hexit : st.exit = none) (hcol : 0 ≤ col ∧ col < cfg.ncols)
    (hedge : row < 1 ∨ col < 1) :
    (row_body env cfg st row).out_buf col = FCell.null := by
  unfold row_body
  simp only [hexit]
  by_cases hc : (row < 1 ∨ row > cfg.nrows - 1)
  · rw [if_pos hc]
    have h : (0 : Int) ≤ col ∧ col < 0 + cfg.ncols := by omega
    simp only [G_set_f_null_value, h, and_self, if_true]
  · rw [if_neg hc]
    have h0 : (0 : Int) ≤ col ∧ col < ((cfg.ncols.toNat : Nat) : Int) := by omega
    have h1 : col < 1 ∨ col > cfg.ncols - 1 := by omega
    simp only [put_step, shift_step, col_loop, col_loop_range]
    split <;> simp only [h0, h1, and_self, if_true]

/-! ## The claims -/

/-- C1 (the code diverges): in a full pass over a raster with `nrows >= 1` the rows handed
to the writer are those of the loop indices `1 .. nrows-1`, in this order: `nrows - 1`
rows instead of `nrows`, and none for row 0, which leaves the loop at `continue`. -/
theorem rows_handed_to_writer {σ V : Type} (env : Env σ V) (args : Args)
    (hparse : env.G_parser_rc = 0) (h3 : 3 ≤ args.window) (hodd : args.window % 2 = 1)
    (hopen : 0 ≤ env.G_open_raster_new)
    (hput : ∀ r : Int, 0 ≤ r → r < env.nrows → 0 ≤ env.G_put_raster_row r)
    (hrows : 1 ≤ env.nrows) :
    put_rows (main env args).events =
        (List.range (env.nrows.toNat - 1)).map (fun (i : Nat) => (i : Int) + 1) ∧
      ((put_rows (main env args).events).length : Int) = env.nrows - 1 ∧
      (0 : Int) ∉ put_rows (main env args).events := by
  rw [put_rows_main env args hparse h3 hodd hopen hput]
  refine ⟨rfl, ?_, ?_⟩
  · simp only [List.length_map, List.length_range]
    omega
  · simp only [List.mem_map, List.mem_range, not_exists, not_and]
    intro i _
    omega

/-- C1, at a 3 x 3 raster with window size 3: two rows reach the writer, those of the
loop indices 1 and 2. -/
theorem rows_handed_to_writer_witness :
    put_rows (main (symEnv 3 3) (argsOf 3 "standard")).events = [1, 2] ∧
      ((put_rows (main (symEnv 3 3) (argsOf 3 "standard")).events).length : Int) = 3 - 1 ∧
      (0 : Int) ∉ put_rows (main (symEnv 3 3) (argsOf 3 "standard")).events :=
  rows_handed_to_writer (symEnv 3 3) (argsOf 3 "standard") rfl (by decide) (by decide)
    (by decide) (fun _ _ _ => le_refl 0) (by decide)

/-- C2 (the code diverges): in a full pass over a raster with `nrows >= 2` and
`ncols >= 2` the cells of the last row and of the last column, column 0 and row 0 apart,
reach the writer with a computed value, not as no-data: the tests `row > nrows-1` and
`col > ncols-1` never hold inside the loops. -/
theorem last_row_and_last_column_computed {σ V : Type} (env : Env σ V) (args : Args)
    (hparse : env.G_parser_rc = 0) (h3 : 3 ≤ args.window) (hodd : args.window % 2 = 1)
    (hopen : 0 ≤ env.G_open_raster_new)
    (hput : ∀ r : Int, 0 ≤ r → r < env.nrows → 0 ≤ env.G_put_raster_row r)
    (hrows : 2 ≤ env.nrows) (hcols : 2 ≤ env.ncols) :
    (∀ col : Int, 1 ≤ col → col ≤ env.ncols - 1 →
      emitted (main env args).events (env.nrows - 1) col =
        some (FCell.val (env.mul env.PI2PERCENT
          (env.calculate_convergence (config_of env args)
            (bufs_at env (config_of env args) (env.create_maps (config_of env args))
              (env.nrows - 1).toNat)
            (env.nrows - 1) (cur_row (config_of env args) (env.nrows - 1)) col)))) ∧
    (∀ row : Int, 1 ≤ row → row ≤ env.nrows - 1 →
      emitted (main env args).events row (env.ncols - 1) =
        some (FCell.val (env.mul env.PI2PERCENT
          (env.calculate_convergence (config_of env args)
            (bufs_at env (config_of env args) (env.create_maps (config_of env args)) row.toNat)
            row (cur_row (config_of env args) row) (env.ncols - 1))))) := by
  constructor
  · intro col h1 h2
    have hc : ¬ (col < 1 ∨ col > (config_of env args).ncols - 1) := by
      show ¬ (col < 1 ∨ col > env.ncols - 1)
      omega
    rw [emitted_main env args hparse h3 hodd hopen hput (env.nrows - 1) col
      ⟨by omega, by omega⟩ ⟨by omega, by omega⟩]
    simp only [cell_of, hc, if_false]
  · intro row h1 h2
    have hc : ¬ (env.ncols - 1 < 1 ∨ env.ncols - 1 > (config_of env args).ncols - 1) := by
      show ¬ (env.ncols - 1 < 1 ∨ env.ncols - 1 > env.ncols - 1)
      omega
    rw [emitted_main env args hparse h3 hodd hopen hput row (env.ncols - 1)
      ⟨by omega, by omega⟩ ⟨by omega, by omega⟩]
    simp only [cell_of, hc, if_false]

/-- C2, at a 3 x 3 raster with window size 3: the cells of the last row in columns 1 and
2 and the cell of row 1 in the last column reach the writer as the product of
`PI2PERCENT` and a computed convergence. -/
theorem last_row_and_last_column_computed_witness :
    emitted (main (symEnv 3 3) (argsOf 3 "standard")).events 2 1 =
        some (FCell.val (Sym.times Sym.pi2percent (Sym.conv 0 2 2 1))) ∧
      emitted (main (symEnv 3 3) (argsOf 3 "standard")).events 2 2 =
        some (FCell.val (Sym.times Sym.pi2percent (Sym.conv 0 2 2 2))) ∧
      emitted (main (symEnv 3 3) (argsOf 3 "standard")).events 1 2 =
        some (FCell.val (Sym.times Sym.pi2percent (Sym.conv 0 1 1 2))) :=
  have h := last_row_and_last_column_computed (symEnv 3 3) (argsOf 3 "standard") rfl
    (by decide) (by decide) (by decide) (fun _ _ _ => le_refl 0) (by decide) (by decide)
  ⟨h.1 1 (by decide) (by decide), h.1 2 (by decide) (by decide),
    h.2 1 (by decide) (by decide)⟩

/-- C3 (fails as stated): in a 7 x 7 raster with window size 5 the cell at row 1,
column 3 lies within the radius 2 of the top edge, and reaches the writer with a
computed value, not as no-data. -/
theorem radius_band_cell_computed :
    (1 : Int) < (config_of (symEnv 7 7) (argsOf 5 "standard")).radius ∧
      emitted (main (symEnv 7 7) (argsOf 5 "standard")).events 1 3 =
        some (FCell.val (Sym.times Sym.pi2percent (Sym.conv 0 1 1 3))) ∧
      emitted (main (symEnv 7 7) (argsOf 5 "standard")).events 1 3 ≠ some FCell.null := by
  decide

/-- C3 (amended): the no-data border of the driver is one cell wide at the top and at
the left, whatever the radius. In the iteration of row `row` every cell with `row < 1`
or `col < 1` is set to the null-value marker in the output buffer; in a full pass
`calculate_convergence` is never called for such a cell, every row handed to the writer
has no-data in column 0, and every cell with `1 <= row <= nrows - 2` and
`1 <= col <= ncols - 2` is handed over with its computed value, within the radius of an
edge or not. -/
theorem null_border_one_cell {σ V : Type} (env : Env σ V) (args : Args)
    (hparse : env.G_parser_rc = 0) (h3 : 3 ≤ args.window) (hodd : args.window % 2 = 1)
    (hopen : 0 ≤ env.G_open_raster_new)
    (hput : ∀ r : Int, 0 ≤ r → r < env.nrows → 0 ≤ env.G_put_raster_row r) :
    (∀ (st : State σ V) (row col : Int), st.exit = none → 0 ≤ col → col < env.ncols →
      (row < 1 ∨ col < 1) →
      (row_body env (config_of env args) st row).out_buf col = FCell.null) ∧
    (∀ row cr col : Int, (row < 1 ∨ col < 1) →
      (Event.calculate_convergence row cr col : Event V) ∉ (main env args).events) ∧
    (∀ row : Int, 1 ≤ row → row < env.nrows → 0 < env.ncols →
      emitted (main env args).events row 0 = some FCell.null) ∧
    (∀ row col : Int, 1 ≤ row → row ≤ env.nrows - 2 → 1 ≤ col → col ≤ env.ncols - 2 →
      emitted (main env args).events row col =
        some (FCell.val (env.mul env.PI2PERCENT
          (env.calculate_convergence (config_of env args)
            (bufs_at env (config_of env args) (env.create_maps (config_of env args)) row.toNat)
            row (cur_row (config_of env args) row) col)))) := by
  refine ⟨?_, ?_, ?_, ?_⟩
  · intro st row col hexit h0 h1 hedge
    exact row_body_out_buf env (config_of env args) st row col hexit ⟨h0, h1⟩ hedge
  · intro row cr col hedge hmem
    rw [mem_main_calc env args hparse h3 hodd hopen hput] at hmem
    omega
  · intro row h1 h2 hc
    rw [emitted_main env args hparse h3 hodd hopen hput row 0 ⟨h1, h2⟩ ⟨le_refl 0, hc⟩]
    simp [cell_of]
  · intro row col hr1 hr2 hc1 hc2
    have hc : ¬ (col < 1 ∨ col > (config_of env args).ncols - 1) := by
      show ¬ (col < 1 ∨ col > env.ncols - 1)
      omega
    rw [emitted_main env args hparse h3 hodd hopen hput row col
      ⟨by omega, by omega⟩ ⟨by omega, by omega⟩]
    simp only [cell_of, hc, if_false]

/-- C3 (amended), at a 7 x 7 raster with window size 5: the buffer cell of row 0,
column 3 is null after the iteration of row 0, no convergence is computed for row 0 or
column 0, row 1 reaches the writer with no-data in column 0, and the cell of row 5,
column 1, within the radius of two edges, reaches it with its computed value. -/
theorem null_border_one_cell_witness :
    (row_body (symEnv 7 7) (config_of (symEnv 7 7) (argsOf 5 "standard"))
        { bufs := 0, out_buf := fun _ => FCell.val Sym.pi2percent, events := [], exit := none }
        0).out_buf 3 = FCell.null ∧
      Event.calculate_convergence 0 0 3 ∉ (main (symEnv 7 7) (argsOf 5 "standard")).events ∧
      Event.calculate_convergence 3 2 0 ∉ (main (symEnv 7 7) (argsOf 5 "standard")).events ∧
      emitted (main (symEnv 7 7) (argsOf 5 "standard")).events 1 0 = some FCell.null ∧
      emitted (main (symEnv 7 7) (argsOf 5 "standard")).events 5 1 =
        some (FCell.val (Sym.times Sym.pi2percent (Sym.conv 1 5 3 1))) :=
  have h := null_border_one_cell (symEnv 7 7) (argsOf 5 "standard") rfl
    (by decide) (by decide) (by decide) (fun _ _ _ => le_refl 0)
  ⟨h.1 _ 0 3 rfl (by decide) (by decide) (by decide),
    h.2.1 0 0 3 (by decide), h.2.1 3 2 0 (by decide),
    h.2.2.1 1 (by decide) (by decide) (by decide),
    h.2.2.2 5 1 (by decide) (by decide) (by decide) (by decide)⟩

/-- C4: once the option parser has accepted the command line, the run ends with the
fatal error of the window check exactly when the window size is below 3 or even; every
odd window size from 3 on passes the check, and when the check fails the run ends with
no call made: no map opened, no cell computed, no row written. -/
theorem window_size_validation {σ V : Type} (env : Env σ V) (args : Args)
    (hparse : env.G_parser_rc = 0) :
    ((main env args).exit = Exit.fatal WINDOW_MSG ↔ (args.window < 3 ∨ Even args.window)) ∧
    (setup env args = Except.error WINDOW_MSG ↔ (args.window < 3 ∨ Even args.window)) ∧
    ((3 ≤ args.window ∧ Odd args.window) → setup env args = Except.ok (config_of env args)) ∧
    ((args.window < 3 ∨ Even args.window) →
      main env args = { events := [], exit := Exit.fatal WINDOW_MSG }) := by
  have hs := setup_window_check env args
  have hbad : (args.window < 3 ∨ Even args.window) →
      main env args = { events := [], exit := Exit.fatal WINDOW_MSG } := by
    intro h
    unfold main
    simp only [hparse, ne_eq, not_true_eq_false, if_false, hs.2 h]
  have hgood : ¬ (args.window < 3 ∨ Even args.window) →
      (main env args).exit ≠ Exit.fatal WINDOW_MSG := by
    intro h
    unfold main
    simp only [hparse, ne_eq, not_true_eq_false, if_false, hs.1 h]
    by_cases ho : env.G_open_raster_new < 0
    · rw [if_pos ho]
      show Exit.fatal CREATE_MSG ≠ Exit.fatal WINDOW_MSG
      decide
    · rw [if_neg ho]
      have hx := row_loop_exit env (config_of env args)
        (List.range (config_of env args).nrows.toNat)
        { bufs := env.create_maps (config_of env args)
          out_buf := env.G_allocate_raster_buf
          events := open_events
          exit := none } (Or.inl rfl)
      unfold row_loop
      rcases hx with hx | hx
      · simp only [hx]
        show Exit.success ≠ Exit.fatal WINDOW_MSG
        decide
      · simp only [hx]
        show Exit.fatal WRITE_MSG ≠ Exit.fatal WINDOW_MSG
        decide
  refine ⟨⟨?_, ?_⟩, ⟨?_, hs.2⟩, ?_, hbad⟩
  · intro h
    by_contra hn
    exact hgood hn h
  · intro h
    rw [hbad h]
  · intro h
    by_contra hn
    rw [hs.1 hn] at h
    cases h
  · rintro ⟨h1, h2⟩
    apply hs.1
    rw [← Int.not_even_iff_odd] at h2
    rintro (h | h)
    · omega
    · exact h2 h

/-- C4, at window size 4: the run ends at once with the fatal error of the window
check, and window size 3 passes the check. -/
theorem window_size_validation_witness :
    main (symEnv 5 5) (argsOf 4 "standard") = { events := [], exit := Exit.fatal WINDOW_MSG } ∧
      setup (symEnv 5 5) (argsOf 3 "standard")
        = Except.ok (config_of (symEnv 5 5) (argsOf 3 "standard")) :=
  have h := window_size_validation (symEnv 5 5) (argsOf 4 "standard") rfl
  have h2 := window_size_validation (symEnv 5 5) (argsOf 3 "standard") rfl
  ⟨h.2.2.2 (Or.inr (by decide)), h2.2.2.1 ⟨by decide, by decide⟩⟩

/-- C5: each of the five names standard, inverse, power, square, gentle selects its own
method, `m_STANDARD`, `m_INVERSE`, `m_POWER`, `m_SQUARE`, `m_GENTLE`, and a run with one
of them as the `weights` answer is the run of `main` with that method. For a `weights`
answer that is none of the five names the run ends at the parser with `EXIT_FAILURE`:
the selection chain is not reached, no method is continued with, and nothing is opened,
computed or written. -/
theorem weights_answer_checked {σ V : Type} (env : Env σ V) (args : Args)
    (hunknown : args.weights ∉ METHOD_OPTIONS) :
    select_method "standard" = some Method.m_STANDARD ∧
    select_method "inverse" = some Method.m_INVERSE ∧
    select_method "power" = some Method.m_POWER ∧
    select_method "square" = some Method.m_SQUARE ∧
    select_method "gentle" = some Method.m_GENTLE ∧
    (∀ a : Args, a.weights ∈ METHOD_OPTIONS →
      r_convergence env a = main env a ∧
      (∃ m : Method, select_method a.weights = some m ∧
        (config_of env a).f_method = some m)) ∧
    r_convergence env args = { events := [], exit := Exit.failure } := by
  refine ⟨by decide, by decide, by decide, by decide, by decide, ?_, ?_⟩
  · intro a ha
    constructor
    · unfold r_convergence G_parser_rc_of
      rw [if_pos ha]
    · have hcfg : (config_of env a).f_method = select_method a.weights := rfl
      rw [hcfg]
      simp only [METHOD_OPTIONS, List.mem_cons, List.mem_singleton, List.not_mem_nil,
        or_false] at ha
      rcases ha with h | h | h | h | h <;> rw [h]
      · exact ⟨Method.m_STANDARD, by decide, by decide⟩
      · exact ⟨Method.m_INVERSE, by decide, by decide⟩
      · exact ⟨Method.m_POWER, by decide, by decide⟩
      · exact ⟨Method.m_SQUARE, by decide, by decide⟩
      · exact ⟨Method.m_GENTLE, by decide, by decide⟩
  · unfold r_convergence G_parser_rc_of main
    rw [if_neg hunknown]
    simp

/-- C5, at the `weights` answer "bogus" and window size 3: the run ends at the parser
with `EXIT_FAILURE` and an empty trace, while "power" selects `m_POWER` and runs as
`main` does. -/
theorem weights_answer_checked_witness :
    select_method "power" = some Method.m_POWER ∧
      r_convergence (symEnv 3 3) (argsOf 3 "power") = main (symEnv 3 3) (argsOf 3 "power") ∧
      r_convergence (symEnv 3 3) (argsOf 3 "bogus") = { events := [], exit := Exit.failure } :=
  have h := weights_answer_checked (symEnv 3 3) (argsOf 3 "bogus") (by decide)
  ⟨h.2.2.1, (h.2.2.2.2.2.1 (argsOf 3 "power") (by decide)).1, h.2.2.2.2.2.2⟩

/-- C6: in a full pass every interior cell, `radius <= row < nrows - radius` and
`radius <= col < ncols - radius`, reaches the writer as the product of `PI2PERCENT` and
`calculate_convergence(row, cur_row, col)` with `cur_row = radius`, the row buffers
being in the state the shifts of the earlier rows left; the call of
`calculate_convergence` with these arguments is made, and the cell is not no-data. -/
theorem interior_cell_populated {σ V : Type} (env : Env σ V) (args : Args)
    (hparse : env.G_parser_rc = 0) (h3 : 3 ≤ args.window) (hodd : args.window % 2 = 1)
    (hopen : 0 ≤ env.G_open_raster_new)
    (hput : ∀ r : Int, 0 ≤ r → r < env.nrows → 0 ≤ env.G_put_raster_row r)
    (row col : Int)
    (hrow : args.window / 2 ≤ row ∧ row < env.nrows - args.window / 2)
    (hcol : args.window / 2 ≤ col ∧ col < env.ncols - args.window / 2) :
    (config_of env args).radius = args.window / 2 ∧
    1 ≤ row ∧ 1 ≤ col ∧
    cur_row (config_of env args) row = (config_of env args).radius ∧
    emitted (main env args).events row col =
      some (FCell.val (env.mul env.PI2PERCENT
        (env.calculate_convergence (config_of env args)
          (bufs_at env (config_of env args) (env.create_maps (config_of env args)) row.toNat)
          row (config_of env args).radius col))) ∧
    (Event.calculate_convergence row (config_of env args).radius col : Event V)
      ∈ (main env args).events := by
  have hrad : (config_of env args).radius = args.window / 2 := by
    show Int.tdiv args.window 2 = args.window / 2
    exact Int.tdiv_eq_ediv (by omega) (by omega)
  have hn : (config_of env args).nrows = env.nrows := rfl
  have hcur : cur_row (config_of env args) row = (config_of env args).radius := by
    unfold cur_row
    rw [hrad, hn, if_neg (by omega), if_neg (by omega)]
  have hc : ¬ (col < 1 ∨ col > (config_of env args).ncols - 1) := by
    show ¬ (col < 1 ∨ col > env.ncols - 1)
    omega
  refine ⟨hrad, by omega, by omega, hcur, ?_, ?_⟩
  · rw [emitted_main env args hparse h3 hodd hopen hput row col
      ⟨by omega, by omega⟩ ⟨by omega, by omega⟩]
    simp only [cell_of, hc, if_false, hcur]
  · rw [mem_main_calc env args hparse h3 hodd hopen hput]
    exact ⟨⟨by omega, by omega⟩, hcur.symm, by omega, by omega⟩

/-- C6, at a 5 x 5 raster with window size 3: the nine cells of the interior 3 x 3
block reach the writer as `PI2PERCENT` times the convergence computed for their row and
column with buffer row 1; one shift precedes row 3. -/
theorem interior_cell_populated_witness :
    emitted (main (symEnv 5 5) (argsOf 3 "standard")).events 1 1 =
      some (FCell.val (Sym.times Sym.pi2percent (Sym.conv 0 1 1 1))) ∧
    emitted (main (symEnv 5 5) (argsOf 3 "standard")).events 1 2 =
      some (FCell.val (Sym.times Sym.pi2percent (Sym.conv 0 1 1 2))) ∧
    emitted (main (symEnv 5 5) (argsOf 3 "standard")).events 1 3 =
      some (FCell.val (Sym.times Sym.pi2percent (Sym.conv 0 1 1 3))) ∧
    emitted (main (symEnv 5 5) (argsOf 3 "standard")).events 2 1 =
      some (FCell.val (Sym.times Sym.pi2percent (Sym.conv 0 2 1 1))) ∧
    emitted (main (symEnv 5 5) (argsOf 3 "standard")).events 2 2 =
      some (FCell.val (Sym.times Sym.pi2percent (Sym.conv 0 2 1 2))) ∧
    emitted (main (symEnv 5 5) (argsOf 3 "standard")).events 2 3 =
      some (FCell.val (Sym.times Sym.pi2percent (Sym.conv 0 2 1 3))) ∧
    emitted (main (symEnv 5 5) (argsOf 3 "standard")).events 3 1 =
      some (FCell.val (Sym.times Sym.pi2percent (Sym.conv 1 3 1 1))) ∧
    emitted (main (symEnv 5 5) (argsOf 3 "standard")).events 3 2 =
      some (FCell.val (Sym.times Sym.pi2percent (Sym.conv 1 3 1 2))) ∧
    emitted (main (symEnv 5 5) (argsOf 3 "standard")).events 3 3 =
      some (FCell.val (Sym.times Sym.pi2percent (Sym.conv 1 3 1 3))) ∧
    Event.calculate_convergence 2 1 2 ∈ (main (symEnv 5 5) (argsOf 3 "standard")).events :=
  have h := fun (row col : Int) => interior_cell_populated (symEnv 5 5) (argsOf 3 "standard")
    rfl (by decide) (by decide) (by decide) (fun _ _ _ => le_refl 0) row col
  ⟨(h 1 1 (by decide) (by decide)).2.2.2.2.1, (h 1 2 (by decide) (by decide)).2.2.2.2.1,
    (h 1 3 (by decide) (by decide)).2.2.2.2.1, (h 2 1 (by decide) (by decide)).2.2.2.2.1,
    (h 2 2 (by decide) (by decide)).2.2.2.2.1, (h 2 3 (by decide) (by decide)).2.2.2.2.1,
    (h 3 1 (by decide) (by decide)).2.2.2.2.1, (h 3 2 (by decide) (by decide)).2.2.2.2.1,
    (h 3 3 (by decide) (by decide)).2.2.2.2.1, (h 2 2 (by decide) (by decide)).2.2.2.2.2⟩

/-- C7: for every window size that passes the check, odd and at least 3, the setup
succeeds and the radius it computes, the truncating quotient `window_size/2`, equals
`(window_size - 1)/2`, is at least 1, and `window_size = 2*radius + 1`. -/
theorem radius_of_valid_window {σ V : Type} (env : Env σ V) (args : Args)
    (h3 : 3 ≤ args.window) (hodd : Odd args.window) :
    ∃ cfg : Config, setup env args = Except.ok cfg ∧
      cfg.window_size = args.window ∧
      cfg.radius = (args.window - 1) / 2 ∧
      1 ≤ cfg.radius ∧
      args.window = 2 * cfg.radius + 1 := by
  rw [Int.odd_iff] at hodd
  have hrad : (config_of env args).radius = args.window / 2 := by
    show Int.tdiv args.window 2 = args.window / 2
    exact Int.tdiv_eq_ediv (by omega) (by omega)
  refine ⟨config_of env args, ?_, rfl, ?_, ?_, ?_⟩
  · apply (setup_window_check env args).1
    rw [Int.even_iff]
    omega
  · rw [hrad]
    omega
  · rw [hrad]
    omega
  · rw [hrad]
    omega

/-- C7, at window size 5: the setup succeeds with radius 2. -/
theorem radius_of_valid_window_witness :
    ∃ cfg : Config, setup (symEnv 7 7) (argsOf 5 "standard") = Except.ok cfg ∧
      cfg.window_size = (argsOf 5 "standard").window ∧
      cfg.radius = ((argsOf 5 "standard").window - 1) / 2 ∧
      1 ≤ cfg.radius ∧
      (argsOf 5 "standard").window = 2 * cfg.radius + 1 :=
  radius_of_valid_window (symEnv 7 7) (argsOf 5 "standard") (by decide) ⟨2, rfl⟩

/-- C8 (the code diverges): with the row buffers holding the raster rows
`base .. base + window_size`, `base` being 0 at the start and advanced by one at every
call of `shift_buffers`, the cells of every row with `radius < row < nrows - radius`
are computed with `cur_row = radius` while `base = row - 1 - radius`: the buffer row
`cur_row` is raster row `row - 1`, one row behind the row being computed. -/
theorem window_one_row_behind (nrows ncols window : Int) (weights : String)
    (h3 : 3 ≤ window) (hodd : window % 2 = 1)
    (row col : Int) (hrow : window / 2 < row ∧ row < nrows - window / 2)
    (hcol : 1 ≤ col ∧ col < ncols) :
    emitted (main (symEnv nrows ncols) (argsOf window weights)).events row col =
        some (FCell.val (Sym.times Sym.pi2percent
          (Sym.conv (row - 1 - window / 2) row (window / 2) col))) ∧
      (row - 1 - window / 2) + window / 2 = row - 1 := by
  have hrad : (config_of (symEnv nrows ncols) (argsOf window weights)).radius = window / 2 := by
    show Int.tdiv window 2 = window / 2
    exact Int.tdiv_eq_ediv (by omega) (by omega)
  have hn : (config_of (symEnv nrows ncols) (argsOf window weights)).nrows = nrows := rfl
  have hcur : cur_row (config_of (symEnv nrows ncols) (argsOf window weights)) row
      = window / 2 := by
    unfold cur_row
    rw [hrad, hn, if_neg (by omega), if_neg (by omega)]
  have hc : ¬ (col < 1 ∨
      col > (config_of (symEnv nrows ncols) (argsOf window weights)).ncols - 1) := by
    show ¬ (col < 1 ∨ col > ncols - 1)
    omega
  have hb := bufs_at_symEnv nrows ncols (config_of (symEnv nrows ncols) (argsOf window weights))
    row.toNat (by rw [hrad]; omega) (by rw [hn]; omega)
  rw [hrad, hn] at hb
  have hb2 : bufs_at (symEnv nrows ncols) (config_of (symEnv nrows ncols) (argsOf window weights))
      0 row.toNat = row - 1 - window / 2 := by
    rw [hb]
    omega
  have hrow2 : 1 ≤ row ∧ row < (symEnv nrows ncols).nrows := by
    show 1 ≤ row ∧ row < nrows
    omega
  have hcol2 : 0 ≤ col ∧ col < (symEnv nrows ncols).ncols := by
    show 0 ≤ col ∧ col < ncols
    omega
  refine ⟨?_, by omega⟩
  rw [emitted_main (symEnv nrows ncols) (argsOf window weights) rfl h3 hodd (le_refl 0)
    (fun _ _ _ => le_refl 0) row col hrow2 hcol2]
  simp only [cell_of, hc, if_false, hcur]
  show some (FCell.val (Sym.times Sym.pi2percent (Sym.conv
    (bufs_at (symEnv nrows ncols) (config_of (symEnv nrows ncols) (argsOf window weights))
      0 row.toNat) row (window / 2) col))) = _
  rw [hb2]

/-- C8, at a 4 x 3 raster with window size 3: the cells of row 2 are computed with
`cur_row = 1` before any shift, so buffer row 1 is raster row 1, not row 2. -/
theorem window_one_row_behind_witness :
    emitted (main (symEnv 4 3) (argsOf 3 "standard")).events 2 1 =
        some (FCell.val (Sym.times Sym.pi2percent (Sym.conv (2 - 1 - 3 / 2) 2 (3 / 2) 1))) ∧
      ((2 : Int) - 1 - 3 / 2) + 3 / 2 = 2 - 1 :=
  window_one_row_behind 4 3 3 "standard" (by decide) (by decide) 2 1 (by decide) (by decide)

/-- C9: a full pass calls `shift_buffers` once for each row with
`radius < row < nrows - radius - 1`, in this order and for no other row, each such row
having `cur_row = radius`; for `nrows >= window_size + 1` these are
`nrows - (window_size + 1)` calls, which with the `window_size + 1` rows held at the
start make `nrows` rows; for `nrows <= window_size + 1` there is no call. -/
theorem shift_buffers_calls {σ V : Type} (env : Env σ V) (args : Args)
    (hparse : env.G_parser_rc = 0) (h3 : 3 ≤ args.window) (hodd : args.window % 2 = 1)
    (hopen : 0 ≤ env.G_open_raster_new)
    (hput : ∀ r : Int, 0 ≤ r → r < env.nrows → 0 ≤ env.G_put_raster_row r) :
    shift_rows (main env args).events =
        (List.range (env.nrows - (args.window + 1)).toNat).map
          (fun (i : Nat) => args.window / 2 + 1 + (i : Int)) ∧
    (args.window + 1 ≤ env.nrows →
      ((shift_rows (main env args).events).length : Int) = env.nrows - (args.window + 1) ∧
      (args.window + 1) + ((shift_rows (main env args).events).length : Int) = env.nrows) ∧
    (env.nrows ≤ args.window + 1 → shift_rows (main env args).events = []) ∧
    (∀ r : Int, r ∈ shift_rows (main env args).events ↔
      (args.window / 2 < r ∧ r < env.nrows - args.window / 2 - 1)) ∧
    (shift_rows (main env args).events).Nodup ∧
    (∀ r : Int, r ∈ shift_rows (main env args).events →
      cur_row (config_of env args) r = args.window / 2) := by
  have hrad : (config_of env args).radius = args.window / 2 := by
    show Int.tdiv args.window 2 = args.window / 2
    exact Int.tdiv_eq_ediv (by omega) (by omega)
  have hn : (config_of env args).nrows = env.nrows := rfl
  have hmem : ∀ r : Int, r ∈ (List.range (env.nrows - (args.window + 1)).toNat).map
      (fun (i : Nat) => args.window / 2 + 1 + (i : Int)) ↔
      (args.window / 2 < r ∧ r < env.nrows - args.window / 2 - 1) := by
    intro r
    simp only [List.mem_map, List.mem_range]
    constructor
    · rintro ⟨i, hi, rfl⟩
      omega
    · intro h
      exact ⟨(r - (args.window / 2 + 1)).toNat, by omega, by omega⟩
  rw [shift_rows_main env args hparse h3 hodd hopen hput]
  refine ⟨rfl, ?_, ?_, hmem, ?_, ?_⟩
  · intro h
    simp only [List.length_map, List.length_range]
    omega
  · intro h
    have h0 : (env.nrows - (args.window + 1)).toNat = 0 := by omega
    rw [h0]
    rfl
  · apply List.Nodup.map _ (List.nodup_range _)
    intro a b hab
    simp only at hab
    omega
  · intro r hr
    rw [hmem] at hr
    unfold cur_row
    rw [hrad, hn, if_neg (by omega), if_neg (by omega)]

/-- C9, at a 7-row raster with window size 3: `shift_buffers` is called for the rows 2,
3 and 4, three calls, which with the four rows held at the start make seven rows. -/
theorem shift_buffers_calls_witness :
    shift_rows (main (symEnv 7 3) (argsOf 3 "standard")).events = [2, 3, 4] ∧
      ((shift_rows (main (symEnv 7 3) (argsOf 3 "standard")).events).length : Int)
        = 7 - (3 + 1) :=
  have h := shift_buffers_calls (symEnv 7 3) (argsOf 3 "standard") rfl (by decide)
    (by decide) (by decide) (fun _ _ _ => le_refl 0)
  ⟨h.1, (h.2.1 (by decide)).1⟩

/-- C10: for every valid window size and every row of the raster, the buffer row index
`cur_row` computed by the driver lies in `0 .. window_size - 1`, that is within `radius`
of the centre row `radius`; it is `row` for `row < radius`, `radius` for
`radius <= row < nrows - radius`, and above `radius` for the remaining rows. In a full
pass every call of `calculate_convergence` receives such an index. -/
theorem cur_row_within_window {σ V : Type} (env : Env σ V) (args : Args)
    (h3 : 3 ≤ args.window) (hodd : args.window % 2 = 1)
    (row : Int) (hrow : 0 ≤ row ∧ row < env.nrows) :
    (config_of env args).radius = args.window / 2 ∧
    0 ≤ cur_row (config_of env args) row ∧
    cur_row (config_of env args) row ≤ args.window - 1 ∧
    -(args.window / 2) ≤ cur_row (config_of env args) row - args.window / 2 ∧
    cur_row (config_of env args) row - args.window / 2 ≤ args.window / 2 ∧
    (row < args.window / 2 → cur_row (config_of env args) row = row) ∧
    (args.window / 2 ≤ row → row < env.nrows - args.window / 2 →
      cur_row (config_of env args) row = args.window / 2) ∧
    (args.window / 2 ≤ row → env.nrows - args.window / 2 ≤ row →
      args.window / 2 < cur_row (config_of env args) row) ∧
    (env.G_parser_rc = 0 → 0 ≤ env.G_open_raster_new →
      (∀ r : Int, 0 ≤ r → r < env.nrows → 0 ≤ env.G_put_raster_row r) →
      ∀ r cr c : Int, (Event.calculate_convergence r cr c : Event V) ∈ (main env args).events →
        0 ≤ cr ∧ cr ≤ args.window - 1) := by
  have hrad : (config_of env args).radius = args.window / 2 := by
    show Int.tdiv args.window 2 = args.window / 2
    exact Int.tdiv_eq_ediv (by omega) (by omega)
  have hn : (config_of env args).nrows = env.nrows := rfl
  have hw : (config_of env args).window_size = args.window := rfl
  have hcur : ∀ r : Int, cur_row (config_of env args) r =
      if r < args.window / 2 then r
      else if r ≥ env.nrows - args.window / 2 then args.window - (env.nrows - r)
      else args.window / 2 := by
    intro r
    unfold cur_row
    rw [hrad, hn, hw]
  refine ⟨hrad, ?_, ?_, ?_, ?_, ?_, ?_, ?_, ?_⟩
  · rw [hcur]
    split_ifs <;> omega
  · rw [hcur]
    split_ifs <;> omega
  · rw [hcur]
    split_ifs <;> omega
  · rw [hcur]
    split_ifs <;> omega
  · intro h
    rw [hcur, if_pos h]
  · intro h1 h2
    rw [hcur, if_neg (by omega), if_neg (by omega)]
  · intro h1 h2
    rw [hcur, if_neg (by omega), if_pos (by omega)]
    omega
  · intro hparse hopen hput r cr c hmem
    rw [mem_main_calc env args hparse h3 hodd hopen hput] at hmem
    obtain ⟨hr, hcr, _, _⟩ := hmem
    rw [hcr, hcur]
    split_ifs <;> omega

/-- C10, at the last row of a 5-row raster with window size 3: `cur_row` is 2, the last
row of the window. -/
theorem cur_row_within_window_witness :
    cur_row (config_of (symEnv 5 5) (argsOf 3 "standard")) 4 = 2 ∧
      cur_row (config_of (symEnv 5 5) (argsOf 3 "standard")) 4
        ≤ (argsOf 3 "standard").window - 1 :=
  have h := cur_row_within_window (symEnv 5 5) (argsOf 3 "standard") (by decide) (by decide)
    4 (by decide)
  ⟨by decide, h.2.2.1⟩

end RConvergence
